import Mathlib

/-!
Verification of the core of the bazi trading system
(`bazi_trading_system.py`): the date-to-element calculator
(`BaziCalculator`), the signal rule engine
(`TradingStrategy.get_trading_signal`), the portfolio simulator
(`BacktestingEngine.run_backtest`) and the metrics calculator
(`BacktestingEngine.calculate_metrics`).

Numeric model: Python floats are modelled by `ℚ` (the code's arithmetic on
prices, cash and confidences is plain field arithmetic); Python ints by `ℤ`
(`int(x)` truncates toward zero, modelled by `pyInt`); Python `%` and `//`
on ints by `Int.emod` and `Int.fdiv`, which agree with Python for the
positive divisors the code uses.
-/

set_option allowUnsafeReducibility true in
attribute [semireducible] Rat.mul Rat.inv Rat.add Rat.sub

/-- The five elements 木 火 土 金 水 (wood, fire, earth, metal, water). -/
inductive Element where
  | wood | fire | earth | metal | water
deriving DecidableEq, Repr, Fintype

/-- The ten heavenly stems 甲乙丙丁戊己庚辛壬癸 (`self.tiangan`). -/
inductive Stem where
  | jia | yi | bing | ding | wu | ji | geng | xin | ren | gui
deriving DecidableEq, Repr

/-- The twelve earthly branches 子丑寅卯辰巳午未申酉戌亥 (`self.dizhi`). -/
inductive Branch where
  | zi | chou | yin | mao | chen | si | wu2 | wei | shen | you | xu | hai
deriving DecidableEq, Repr

open Element Stem Branch

/-- `self.tiangan`: the ordered list of the ten stems. -/
def tiangan : List Stem := [jia, yi, bing, ding, Stem.wu, ji, geng, xin, ren, gui]

/-- `self.dizhi`: the ordered list of the twelve branches. -/
def dizhi : List Branch := [zi, chou, yin, mao, chen, si, wu2, wei, shen, you, xu, hai]

/-- `self.wuxing_tiangan`: the element of each stem. -/
def wuxing_tiangan : Stem → Element
  | jia => wood | yi => wood
  | bing => fire | ding => fire
  | Stem.wu => earth | ji => earth
  | geng => metal | xin => metal
  | ren => water | gui => water

/-- `self.wuxing_dizhi`: the element of each branch. -/
def wuxing_dizhi : Branch → Element
  | zi => water | chou => earth | yin => wood | mao => wood
  | chen => earth | si => fire | wu2 => fire | wei => earth
  | shen => metal | you => metal | xu => earth | hai => water

/-- One row of `self.wuxing_shengke`: the four related elements of an
element — 生 (it generates), 克 (it overcomes), 被生 (it is generated by),
被克 (it is overcome by). -/
structure ShengkeRow where
  sheng : Element
  ke : Element
  beisheng : Element
  beike : Element
deriving DecidableEq, Repr

/-- `self.wuxing_shengke`: the fixed generation/overcoming table. -/
def wuxing_shengke : Element → ShengkeRow
  | wood => ⟨fire, earth, water, metal⟩
  | fire => ⟨earth, metal, wood, water⟩
  | earth => ⟨metal, water, fire, wood⟩
  | metal => ⟨water, wood, earth, fire⟩
  | water => ⟨wood, fire, metal, earth⟩

/-- The six values `get_wuxing_relationship` can return:
同 SAME, 生 GENERATES, 克 OVERCOMES, 被生 GENERATED_BY, 被克 OVERCOME_BY,
无 NONE. -/
inductive WuxingRel where
  | tong | sheng | ke | beisheng | beike | wu
deriving DecidableEq, Repr

/-- `BaziCalculator.get_wuxing_relationship`: the relation of `a` to `b`. -/
def get_wuxing_relationship (a b : Element) : WuxingRel :=
  if a = b then .tong
  else if (wuxing_shengke a).sheng = b then .sheng
  else if (wuxing_shengke a).ke = b then .ke
  else if (wuxing_shengke a).beisheng = b then .beisheng
  else if (wuxing_shengke a).beike = b then .beike
  else .wu

/-- A Python `datetime`: the fields the code reads (year, month, day, hour). -/
structure PyDateTime where
  year : ℤ
  month : ℤ
  day : ℤ
  hour : ℤ
deriving DecidableEq, Repr

/-- The eight pillar components of `calculate_bazi`'s result (the
`year_tg` … `hour_dz` entries; the four combined strings are just these
pairs rendered). -/
structure Bazi where
  year_tg : Stem
  year_dz : Branch
  month_tg : Stem
  month_dz : Branch
  day_tg : Stem
  day_dz : Branch
  hour_tg : Stem
  hour_dz : Branch
deriving DecidableEq, Repr

/-- Indexing `self.tiangan` (indices produced by the code are in 0..9). -/
def stemAt (i : ℤ) : Stem := tiangan.getD i.toNat jia

/-- Indexing `self.dizhi` (indices produced by the code are in 0..11). -/
def branchAt (i : ℤ) : Branch := dizhi.getD i.toNat zi

/-- `BaziCalculator.get_tiangan_dizhi`: the year pillar, with 1900 as the
reference 甲子 year; `offset = (year - 1900) % 60`. -/
def get_tiangan_dizhi (year : ℤ) : Stem × Branch :=
  let offset := (year - 1900).emod 60
  (stemAt (offset.emod 10), branchAt (offset.emod 12))

/-- `BaziCalculator.calculate_bazi`: the (intentionally simplified) pillars
of a datetime. -/
def calculate_bazi (date : PyDateTime) : Bazi :=
  let yearPair := get_tiangan_dizhi date.year
  { year_tg := yearPair.1
    year_dz := yearPair.2
    month_tg := stemAt ((date.month - 1).emod 10)
    month_dz := branchAt ((date.month - 1).emod 12)
    day_tg := stemAt ((date.day - 1).emod 10)
    day_dz := branchAt ((date.day - 1).emod 12)
    hour_tg := stemAt ((date.hour.fdiv 2).emod 10)
    hour_dz := branchAt ((date.hour.fdiv 2).emod 12) }

/-- The eight element symbols of a bazi, in the order
`analyze_wuxing_strength` visits them (the four stems, then the four
branches). -/
def bazi_elements (b : Bazi) : List Element :=
  [wuxing_tiangan b.year_tg, wuxing_tiangan b.month_tg,
   wuxing_tiangan b.day_tg, wuxing_tiangan b.hour_tg,
   wuxing_dizhi b.year_dz, wuxing_dizhi b.month_dz,
   wuxing_dizhi b.day_dz, wuxing_dizhi b.hour_dz]

/-- `BaziCalculator.analyze_wuxing_strength`: how many of the eight symbols
carry each element (every stem and branch maps to an element, so each of
the eight symbols bumps exactly one counter). -/
def analyze_wuxing_strength (b : Bazi) : Element → ℕ :=
  fun w => (bazi_elements b).count w

/-- Python's `int(x)` on a float: truncation toward zero (the numerator of
the reduced fraction, t-divided by the denominator). -/
def pyInt (q : ℚ) : ℤ := q.num.tdiv q.den

/-- Python's binary `min`. -/
def pymin (a b : ℚ) : ℚ := if a ≤ b then a else b

/-- Gregorian leap-year test (what `datetime` implements). -/
def is_leap (y : ℤ) : Bool := y.emod 4 = 0 ∧ (y.emod 100 ≠ 0 ∨ y.emod 400 = 0)

/-- Number of days of month `m` of year `y` (what `datetime` implements). -/
def days_in_month (y m : ℤ) : ℤ :=
  if m = 2 then (if is_leap y then 29 else 28)
  else if m = 4 ∨ m = 6 ∨ m = 9 ∨ m = 11 then 30
  else 31

/-- `date - timedelta(days=1)` on a `datetime`: the previous calendar day,
same hour. -/
def subtract_one_day (dt : PyDateTime) : PyDateTime :=
  if 1 < dt.day then { dt with day := dt.day - 1 }
  else if 1 < dt.month then
    { dt with month := dt.month - 1, day := days_in_month dt.year (dt.month - 1) }
  else { dt with year := dt.year - 1, month := 12, day := 31 }

/-- The order `'木', '火', '土', '金', '水'` in which the scoring loops of
`get_trading_signal` visit the elements. -/
def wuxing_order : List Element := [wood, fire, earth, metal, water]

/-- The rendered name of an element (the code builds its reason strings
with f-strings over these characters). -/
def element_name : Element → String
  | wood => "木" | fire => "火" | earth => "土" | metal => "金" | water => "水"

/-- The two nested scoring loops of `get_trading_signal`: starting from
`signal_strength = 0` and `signal_reason = []`, for each element `w` (in
`wuxing_order`) with `current_wuxing[w] > symbol_wuxing[w]`, and each
`target ≠ w` with `get_wuxing_relationship w target == 生` and
`symbol_wuxing[target] > 0`, add 1 to the score and append the reason
pair `(w, target)`. -/
def score_loop (current_wuxing symbol_wuxing : Element → ℕ) : ℤ × List (Element × Element) :=
  wuxing_order.foldl (fun acc w =>
    if symbol_wuxing w < current_wuxing w then
      wuxing_order.foldl (fun acc2 target =>
        if w ≠ target ∧ get_wuxing_relationship w target = .sheng ∧ 0 < symbol_wuxing target
        then (acc2.1 + 1, acc2.2 ++ [(w, target)])
        else acc2) acc
    else acc) (0, [])

/-- The three signal values the code uses (`'BUY'`, `'SELL'`, `'HOLD'`;
in `TradeRecord.action` only the first two occur). -/
inductive SignalType where
  | BUY | SELL | HOLD
deriving DecidableEq, Repr

/-- The fields of `get_trading_signal`'s result dict that the rest of the
system consumes (`signal`, `confidence`, `strength`, `reason`; the dict
also carries the two bazi/wuxing inputs, which only the plotting code
reads). -/
structure SignalInfo where
  signal : SignalType
  confidence : ℚ
  strength : ℤ
  reason : List String
deriving DecidableEq, Repr

/-- The decision rule of `get_trading_signal`, applied to two element
strength vectors (the spec's `SignalGenerator.evaluate`): run the scoring
loops, then `signal_strength >= 3 → BUY` with
`confidence = min(signal_strength / 5.0, 1.0)`,
`signal_strength <= -3 → SELL` with
`confidence = min(abs(signal_strength) / 5.0, 1.0)`, else `HOLD` with
`confidence = 0.5`. -/
def evaluate_signal (current_wuxing symbol_wuxing : Element → ℕ) : SignalInfo :=
  let scored := score_loop current_wuxing symbol_wuxing
  let signal_strength : ℤ := scored.1
  let reason : List String :=
    scored.2.map (fun p => element_name p.1 ++ "生" ++ element_name p.2)
  if 3 ≤ signal_strength then
    ⟨.BUY, pymin ((signal_strength : ℚ) / 5) 1, signal_strength, reason⟩
  else if signal_strength ≤ -3 then
    ⟨.SELL, pymin (((|signal_strength| : ℤ) : ℚ) / 5) 1, signal_strength, reason⟩
  else
    ⟨.HOLD, 1 / 2, signal_strength, reason⟩

/-- `TradingStrategy.get_trading_signal`: the current-date vector comes
from the date's bazi, the symbol vector from the bazi of one calendar day
earlier; the `symbol` and `price_data` parameters of the Python method are
not read by the signal computation (`price_data` is omitted here). -/
def get_trading_signal (symbol : String) (date : PyDateTime) : SignalInfo :=
  let current_bazi := calculate_bazi date
  let current_wuxing := analyze_wuxing_strength current_bazi
  let symbol_bazi := calculate_bazi (subtract_one_day date)
  let symbol_wuxing := analyze_wuxing_strength symbol_bazi
  let _ := symbol
  evaluate_signal current_wuxing symbol_wuxing

/-- A calendar date (a Python `datetime.date`, the values of
`data.index.date` that key the price series). -/
structure Date where
  year : ℤ
  month : ℤ
  day : ℤ
deriving DecidableEq, Repr

/-- `datetime.combine(date, datetime.min.time())`: the date at hour 0
(the `date_obj` of the backtest loop). -/
def to_datetime (d : Date) : PyDateTime := ⟨d.year, d.month, d.day, 0⟩

/-- First value of an association list under a key (how the code reads a
dict keyed by symbol, or a price series indexed by date). -/
def assoc_lookup {κ α : Type} [DecidableEq κ] (l : List (κ × α)) (k : κ) : Option α :=
  (l.find? (fun p => decide (p.1 = k))).map Prod.snd

/-- `del positions[symbol]`: drop the entry of a key. -/
def assoc_erase {κ α : Type} [DecidableEq κ] (l : List (κ × α)) (k : κ) : List (κ × α) :=
  l.eraseP (fun p => decide (p.1 = k))

/-- A price series: the (date, close) pairs the core reads from a symbol's
dataframe (only `Close` is consumed). -/
abbrev PriceSeries := List (Date × ℚ)

/-- The data dict: symbol → price series, as handed to the backtest. -/
abbrev DataDict := List (String × PriceSeries)

/-- The close of a symbol on a date: `None` when the symbol is not in the
data dict or has no bar on the date (the code's two `continue` guards). -/
def price_on (data_dict : DataDict) (symbol : String) (d : Date) : Option ℚ :=
  (assoc_lookup data_dict symbol).bind (fun series => assoc_lookup series d)

/-- An open position: `positions[symbol] = {shares, entry_price,
entry_date}`. -/
structure Position where
  shares : ℤ
  entry_price : ℚ
  entry_date : Date
deriving DecidableEq, Repr

/-- One entry of `results['trades']`. -/
structure TradeRecord where
  date : Date
  symbol : String
  action : SignalType
  shares : ℤ
  price : ℚ
  confidence : ℚ
deriving DecidableEq, Repr

/-- The mutable state the per-symbol trading block touches:
`current_capital`, `positions`, `results['trades']`, and the per-date
`daily_returns` accumulator. -/
structure PortState where
  cash : ℚ
  positions : List (String × Position)
  trades : List TradeRecord
  daily_ret : ℚ
deriving DecidableEq, Repr

/-- The share count of a BUY:
`shares = int(current_capital * confidence * 0.1 / current_price)`. -/
def buy_shares (cash confidence price : ℚ) : ℤ :=
  pyInt (cash * confidence * (1 / 10) / price)

/-- The if/elif part of the trading block of `run_backtest` for one symbol
on one date: the BUY branch (signal `BUY` and no open position, buy
`buy_shares` if positive, debit the cost, open the position, log the
trade), and the SELL branch (signal `SELL` and an open position: credit
the proceeds, record the realized return in `daily_returns`, log the
trade, delete the position). -/
def trade_branch (info : SignalInfo) (price : ℚ) (date : Date) (symbol : String)
    (st : PortState) : PortState :=
  if info.signal = SignalType.BUY ∧ assoc_lookup st.positions symbol = Option.none then
    let shares := buy_shares st.cash info.confidence price
    if 0 < shares then
      { st with
        cash := st.cash - shares * price
        positions := st.positions ++ [(symbol, ⟨shares, price, date⟩)]
        trades := st.trades ++ [⟨date, symbol, .BUY, shares, price, info.confidence⟩] }
    else st
  else
    match info.signal, assoc_lookup st.positions symbol with
    | SignalType.SELL, some position =>
      { st with
        cash := st.cash + position.shares * price
        daily_ret := st.daily_ret + (price - position.entry_price) / position.entry_price
        trades := st.trades ++
          [⟨date, symbol, .SELL, position.shares, price, info.confidence⟩]
        positions := assoc_erase st.positions symbol }
    | _, _ => st

/-- The trailing 更新持仓市值 step of the block: when the symbol still has
an open position after the branch, add its unrealized return to the
per-date `daily_returns` accumulator. -/
def mark_update (price : ℚ) (symbol : String) (st1 : PortState) : PortState :=
  match assoc_lookup st1.positions symbol with
  | some position =>
    { st1 with daily_ret := st1.daily_ret + (price - position.entry_price) / position.entry_price }
  | Option.none => st1

/-- The whole trading block of `run_backtest` for one symbol on one date
(the BUY/SELL branches followed by the 更新持仓市值 step). -/
def execute_trade (info : SignalInfo) (price : ℚ) (date : Date) (symbol : String)
    (st : PortState) : PortState :=
  mark_update price symbol (trade_branch info price date symbol st)

/-- One symbol of the inner loop of `run_backtest`: skip the symbol when it
has no price bar on the date, otherwise get the trading signal for the
date (at hour 0) and execute the trading block at the bar's close. -/
def process_symbol (data_dict : DataDict) (d : Date) (st : PortState) (symbol : String) :
    PortState :=
  match price_on data_dict symbol d with
  | Option.none => st
  | some current_price =>
    execute_trade (get_trading_signal symbol (to_datetime d)) current_price d symbol st

/-- `total_position_value`: the mark-to-market sum over open positions that
have a price bar on the date (a position without a bar is excluded from
the sum for that date). -/
def total_position_value (data_dict : DataDict) (d : Date)
    (positions : List (String × Position)) : ℚ :=
  (positions.map (fun p =>
    match price_on data_dict p.1 d with
    | some close => p.2.shares * close
    | Option.none => 0)).sum

/-- The whole state of one backtest run: the trading state plus the
accumulating `results` lists (`portfolio_value` is seeded with the initial
capital and `returns` with 0 before any date is processed). -/
structure SimState where
  port : PortState
  portfolio_value : List ℚ
  returns : List ℚ
  daily_returns : List ℚ
  dates : List Date
deriving DecidableEq, Repr

/-- One date of the outer loop of `run_backtest`: reset the per-date
`daily_returns` accumulator, run the trading block over the symbols in
list order, then append the portfolio value (cash plus mark-to-market),
the period return against the previous `portfolio_value` entry, the
accumulated daily return, and the date. -/
def process_date (symbols : List String) (data_dict : DataDict) (st : SimState) (d : Date) :
    SimState :=
  let p := symbols.foldl (fun s symbol => process_symbol data_dict d s symbol)
    { st.port with daily_ret := 0 }
  let portfolio_value := p.cash + total_position_value data_dict d p.positions
  let prev := st.portfolio_value.getLastD 0
  let appended := st.portfolio_value ++ [portfolio_value]
  { port := p
    portfolio_value := appended
    returns := st.returns ++
      [if 1 < appended.length then (portfolio_value - prev) / prev else 0]
    daily_returns := st.daily_returns ++ [p.daily_ret]
    dates := st.dates ++ [d] }

/-- Chronological order on dates (how Python sorts `datetime.date`). -/
def date_le (a b : Date) : Bool :=
  decide (a.year < b.year ∨ (a.year = b.year ∧
    (a.month < b.month ∨ (a.month = b.month ∧ a.day ≤ b.day))))

/-- Insert a date into an ascending list. -/
def insert_date (d : Date) : List Date → List Date
  | [] => [d]
  | x :: xs => if date_le d x then d :: x :: xs else x :: insert_date d xs

/-- `sorted(set_of_dates)`: the distinct dates in ascending order
(insertion sort of the deduplicated list; on distinct dates the ascending
order is unique, so this is the list Python's `sorted` produces). -/
def sorted_dates (l : List Date) : List Date :=
  l.dedup.foldr insert_date []

/-- The fresh `results` of `run_backtest` before the date loop:
`portfolio_value = [initial_capital]`, `returns = [0]`, no positions, no
trades. -/
def init_sim_state (initial_capital : ℚ) : SimState :=
  { port := { cash := initial_capital, positions := [], trades := [], daily_ret := 0 }
    portfolio_value := [initial_capital]
    returns := [0]
    daily_returns := []
    dates := [] }

/-- `get_multiple_symbols_data` keeps only symbols whose fetched dataframe
is non-empty; the raw data stands for whatever the external provider
returned per symbol. -/
def non_empty_data (raw_data : DataDict) : DataDict :=
  raw_data.filter (fun p => !p.2.isEmpty)

/-- `BacktestingEngine.run_backtest`: filter out empty series, report the
error dict `{'error': '无法获取数据'}` when nothing is left, otherwise
fold the date loop over the sorted distinct dates of all series. -/
def run_backtest (symbols : List String) (raw_data : DataDict) (initial_capital : ℚ) :
    Except String SimState :=
  let data_dict := non_empty_data raw_data
  if data_dict.isEmpty then .error "无法获取数据"
  else
    let all_dates := sorted_dates
      (data_dict.foldr (fun p acc => p.2.map Prod.fst ++ acc) [])
    .ok (all_dates.foldl (process_date symbols data_dict) (init_sim_state initial_capital))

/-- The trade log of a run (`results['trades']`; empty for the error
result). -/
def result_trades (r : Except String SimState) : List TradeRecord :=
  match r with
  | .ok s => s.port.trades
  | .error _ => []

/-- The equity curve of a run (`results['portfolio_value']`; empty for the
error result). -/
def result_portfolio_value (r : Except String SimState) : List ℚ :=
  match r with
  | .ok s => s.portfolio_value
  | .error _ => []

/-- `np.maximum` on two floats (no NaN in play): the larger one. -/
def pymax (a b : ℚ) : ℚ := if a ≤ b then b else a

/-- `np.maximum.accumulate` from a running peak. -/
def running_peak_from (peak : ℚ) : List ℚ → List ℚ
  | [] => []
  | v :: vs => pymax peak v :: running_peak_from (pymax peak v) vs

/-- `np.maximum.accumulate(portfolio_values)`: the running peak series. -/
def running_peak : List ℚ → List ℚ
  | [] => []
  | v :: vs => v :: running_peak_from v vs

/-- `np.min` of a series (0 for an empty one, which the code never asks). -/
def list_min : List ℚ → ℚ
  | [] => 0
  | x :: xs => xs.foldl pymin x

/-- Population variance of a return series, `np.std(returns) ** 2`
(`np.std` of an empty array is NaN; division by the zero length models it
as 0 here, which agrees with the one comparison the code performs,
`volatility > 0` being falsy). -/
def returns_variance (l : List ℚ) : ℚ :=
  let mean := l.sum / (l.length : ℚ)
  ((l.map (fun r => (r - mean) ^ 2)).sum) / (l.length : ℚ)

/-- The rational skeleton of the metrics dict `calculate_metrics` returns.
Three of the seven statistics are irrational-valued float functions of
these fields and are represented by their defining data:
年化收益率 (annualized return) is `(1 + total_return) ** (365 / days) - 1`,
波动率 (volatility) is `sqrt(variance * 252)`, and 夏普比率 (Sharpe) is
`(annualized - 0.03) / volatility` when the volatility is positive
(equivalently `variance > 0`) and 0 otherwise. -/
structure MetricsResult where
  total_return : ℚ
  days : ℕ
  variance : ℚ
  max_drawdown : ℚ
  win_rate : ℚ
  trade_count : ℕ
deriving DecidableEq, Repr

/-- `BacktestingEngine.calculate_metrics`: `None` models the empty dict
returned when `results['portfolio_value']` is falsy (i.e. the empty
list), otherwise the statistics are computed: `returns[1:]` drops the
seeded first 0, `total_return = (last - first) / first`, the drawdown
series is `(v - peak) / peak` against the running peak and
`max_drawdown` its minimum, `win_rate` the share of positive entries of
`returns[1:]` (0 when there are none), `trade_count = len(trades)`. -/
def calculate_metrics (portfolio_value returns_all : List ℚ) (trades : List TradeRecord) :
    Option MetricsResult :=
  if portfolio_value.isEmpty then Option.none
  else
    let returns := returns_all.drop 1
    let first := portfolio_value.headD 0
    let last := portfolio_value.getLastD 0
    let drawdown := List.zipWith (fun v peak => (v - peak) / peak)
      portfolio_value (running_peak portfolio_value)
    some
      { total_return := (last - first) / first
        days := portfolio_value.length
        variance := returns_variance returns
        max_drawdown := list_min drawdown
        win_rate := if 0 < returns.length then
            ((returns.filter (fun r => decide (0 < r))).length : ℚ) / (returns.length : ℚ)
          else 0
        trade_count := trades.length }

/-- The equity appended for a date once its symbols are processed: cash
plus the mark-to-market sum (`portfolio_value = current_capital +
total_position_value`). -/
def equity_value (data_dict : DataDict) (d : Date) (p : PortState) : ℚ :=
  p.cash + total_position_value data_dict d p.positions

/-- The invariant the simulator maintains: the cash balance is
non-negative and every open position has a positive share count. -/
def cash_invariant (st : PortState) : Prop :=
  0 ≤ st.cash ∧ ∀ p ∈ st.positions, 0 < p.2.shares

/-- Every price bar of the data dict has a positive close (true of real
market data; `shares = int(... / current_price)` would divide by zero
otherwise). -/
def prices_pos (data_dict : DataDict) : Prop :=
  ∀ pr ∈ data_dict, ∀ b ∈ pr.2, 0 < b.2

/-- The concrete date 1986-01-01, on which `get_trading_signal` produces a
BUY (score 3, confidence 3/5). -/
def demo_date : Date := ⟨1986, 1, 1⟩

/-- Two symbols with one identical price bar each on 1986-01-01. -/
def demo_data : DataDict := [("A", [(demo_date, 100)]), ("B", [(demo_date, 100)])]

theorem pymin_eq_min (a b : ℚ) : pymin a b = min a b := by
  rw [pymin, min_def]

theorem pyInt_eq_floor {q : ℚ} (h : 0 ≤ q) : pyInt q = ⌊q⌋ := by
  rw [pyInt, Rat.floor_def]
  exact Int.tdiv_eq_ediv (Rat.num_nonneg.mpr h) (Int.ofNat_nonneg q.den)

theorem pyInt_pos_nonneg {q : ℚ} (h : 0 < pyInt q) : 0 ≤ q := by
  by_contra hq
  push_neg at hq
  have hnum : q.num < 0 := Rat.num_neg.mpr hq
  have hnn : 0 ≤ (-q.num).tdiv q.den :=
    Int.tdiv_nonneg (by omega) (Int.ofNat_nonneg q.den)
  have hneg : (-q.num).tdiv q.den = -(q.num.tdiv q.den) := Int.neg_tdiv _ _
  rw [pyInt] at h
  omega

theorem sum_count_eq_length (l : List Element) : (∑ w : Element, l.count w) = l.length := by
  induction l with
  | nil => simp
  | cons a l ih =>
    simp only [List.count_cons, List.length_cons]
    rw [Finset.sum_add_distrib, ih]
    have : (∑ w : Element, if a == w then 1 else 0) = 1 := by
      simp [beq_iff_eq]
    omega

theorem score_loop_inner_le (current_wuxing symbol_wuxing : Element → ℕ) (w : Element)
    (l : List Element) :
    ∀ acc : ℤ × List (Element × Element),
      acc.1 ≤ (l.foldl (fun acc2 target =>
        if w ≠ target ∧ get_wuxing_relationship w target = .sheng ∧ 0 < symbol_wuxing target
        then (acc2.1 + 1, acc2.2 ++ [(w, target)])
        else acc2) acc).1 := by
  induction l with
  | nil => intro acc; exact le_refl _
  | cons t ts ih =>
    intro acc
    simp only [List.foldl_cons]
    refine le_trans ?_ (ih _)
    split <;> simp

theorem score_loop_nonneg (current_wuxing symbol_wuxing : Element → ℕ) :
    0 ≤ (score_loop current_wuxing symbol_wuxing).1 := by
  unfold score_loop
  have outer : ∀ (l : List Element) (acc : ℤ × List (Element × Element)),
      acc.1 ≤ (l.foldl (fun acc w =>
        if symbol_wuxing w < current_wuxing w then
          wuxing_order.foldl (fun acc2 target =>
            if w ≠ target ∧ get_wuxing_relationship w target = .sheng ∧
              0 < symbol_wuxing target
            then (acc2.1 + 1, acc2.2 ++ [(w, target)])
            else acc2) acc
        else acc) acc).1 := by
    intro l
    induction l with
    | nil => intro acc; exact le_refl _
    | cons w ws ih =>
      intro acc
      simp only [List.foldl_cons]
      refine le_trans ?_ (ih _)
      split
      · exact score_loop_inner_le current_wuxing symbol_wuxing w wuxing_order acc
      · exact le_refl _
  simpa using outer wuxing_order (0, [])

theorem evaluate_signal_eq (current_wuxing symbol_wuxing : Element → ℕ) :
    evaluate_signal current_wuxing symbol_wuxing =
      (if 3 ≤ (score_loop current_wuxing symbol_wuxing).1 then
        ⟨SignalType.BUY, pymin (((score_loop current_wuxing symbol_wuxing).1 : ℚ) / 5) 1,
          (score_loop current_wuxing symbol_wuxing).1,
          (score_loop current_wuxing symbol_wuxing).2.map
            (fun p => element_name p.1 ++ "生" ++ element_name p.2)⟩
      else if (score_loop current_wuxing symbol_wuxing).1 ≤ -3 then
        ⟨SignalType.SELL,
          pymin (((|(score_loop current_wuxing symbol_wuxing).1| : ℤ) : ℚ) / 5) 1,
          (score_loop current_wuxing symbol_wuxing).1,
          (score_loop current_wuxing symbol_wuxing).2.map
            (fun p => element_name p.1 ++ "生" ++ element_name p.2)⟩
      else
        ⟨SignalType.HOLD, 1 / 2, (score_loop current_wuxing symbol_wuxing).1,
          (score_loop current_wuxing symbol_wuxing).2.map
            (fun p => element_name p.1 ++ "生" ++ element_name p.2)⟩) := rfl

/-- C3: for every pair of element-strength vectors, the score computed by
the signal rule engine is non-negative (the scoring loop only
increments), so the returned signal is never SELL — the `score <= -3`
branch is unreachable. -/
theorem score_nonneg_never_sell (current_wuxing symbol_wuxing : Element → ℕ) :
    0 ≤ (evaluate_signal current_wuxing symbol_wuxing).strength ∧
    (evaluate_signal current_wuxing symbol_wuxing).signal ≠ SignalType.SELL := by
  have h := score_loop_nonneg current_wuxing symbol_wuxing
  rw [evaluate_signal_eq]
  split_ifs with h1 h2
  · exact ⟨h, by simp⟩
  · omega
  · exact ⟨h, by simp⟩

/-- C6: the decision rule of the signal rule engine — `score >= 3` gives
BUY with `confidence = min(score / 5, 1.0)`, `score <= -3` gives SELL with
`confidence = min(abs(score) / 5, 1.0)` (a branch the score can in fact
never reach), and otherwise HOLD with confidence 0.5. -/
theorem decision_rule (current_wuxing symbol_wuxing : Element → ℕ) :
    (3 ≤ (evaluate_signal current_wuxing symbol_wuxing).strength →
      (evaluate_signal current_wuxing symbol_wuxing).signal = SignalType.BUY ∧
      (evaluate_signal current_wuxing symbol_wuxing).confidence =
        min (((evaluate_signal current_wuxing symbol_wuxing).strength : ℚ) / 5) 1) ∧
    ((evaluate_signal current_wuxing symbol_wuxing).strength ≤ -3 →
      (evaluate_signal current_wuxing symbol_wuxing).signal = SignalType.SELL ∧
      (evaluate_signal current_wuxing symbol_wuxing).confidence =
        min (((|(evaluate_signal current_wuxing symbol_wuxing).strength| : ℤ) : ℚ) / 5) 1) ∧
    (-3 < (evaluate_signal current_wuxing symbol_wuxing).strength →
      (evaluate_signal current_wuxing symbol_wuxing).strength < 3 →
      (evaluate_signal current_wuxing symbol_wuxing).signal = SignalType.HOLD ∧
      (evaluate_signal current_wuxing symbol_wuxing).confidence = 1 / 2) := by
  rw [evaluate_signal_eq]
  split_ifs with h1 h2 <;> dsimp only
  · exact ⟨fun _ => ⟨rfl, by simp [pymin_eq_min]⟩, fun hc => absurd hc (by omega),
      fun _ hc => absurd hc (by omega)⟩
  · exact ⟨fun hc => absurd hc (by omega), fun _ => ⟨rfl, by simp [pymin_eq_min]⟩,
      fun hc _ => absurd hc (by omega)⟩
  · exact ⟨fun hc => absurd hc (by omega), fun hc => absurd hc (by omega),
      fun _ _ => ⟨rfl, rfl⟩⟩

/-- C7: for every timestamp, the element-strength vector of the computed
bazi has only non-negative counts and its five counts sum to exactly 8
(one per stem and one per branch across the four pillars). -/
theorem strength_vector_sum_eight (dt : PyDateTime) :
    (∀ w : Element, 0 ≤ analyze_wuxing_strength (calculate_bazi dt) w) ∧
    (∑ w : Element, analyze_wuxing_strength (calculate_bazi dt) w) = 8 := by
  refine ⟨fun w => Nat.zero_le _, ?_⟩
  unfold analyze_wuxing_strength
  rw [sum_count_eq_length]
  rfl

/-- C8: the relation table is antisymmetric under inversion — `a` generates
`b` exactly when `b` is generated by `a`, `a` overcomes `b` exactly when
`b` is overcome by `a`, and every element relates to itself as SAME. -/
theorem relation_inverse (a b : Element) :
    (get_wuxing_relationship a b = WuxingRel.sheng ↔
      get_wuxing_relationship b a = WuxingRel.beisheng) ∧
    (get_wuxing_relationship a b = WuxingRel.ke ↔
      get_wuxing_relationship b a = WuxingRel.beike) ∧
    get_wuxing_relationship a a = WuxingRel.tong := by
  revert a b
  decide

/-- C4 (counterexample): an equity curve with exactly one entry has fewer
than 2 entries, yet `calculate_metrics` does not return the empty mapping
for it — the code's guard only tests emptiness, so the statistics are
computed. -/
theorem metrics_one_entry_nonempty :
    calculate_metrics [100000] [0] [] ≠ Option.none := by
  decide

/-- C4 (amended): `calculate_metrics` returns the empty metrics mapping
exactly when the equity curve is empty; a one-entry curve (which
`run_backtest` itself never produces, since its curve is seeded with the
initial capital and grows by one entry per processed date) falls through
the guard and gets its statistics computed. -/
theorem metrics_empty_iff_empty_curve (portfolio_value returns_all : List ℚ)
    (trades : List TradeRecord) :
    calculate_metrics portfolio_value returns_all trades = Option.none ↔
      portfolio_value = [] := by
  cases portfolio_value <;> simp [calculate_metrics]

theorem assoc_lookup_append_self {κ α : Type} [DecidableEq κ] (l : List (κ × α)) (k : κ)
    (v : α) (h : assoc_lookup l k = Option.none) :
    assoc_lookup (l ++ [(k, v)]) k = some v := by
  unfold assoc_lookup at h ⊢
  rw [List.find?_append]
  cases hf : l.find? (fun p => decide (p.1 = k)) with
  | none => simp [List.find?]
  | some p => rw [hf] at h; simp at h

theorem assoc_lookup_append_other {κ α : Type} [DecidableEq κ] (l : List (κ × α))
    (k k' : κ) (v : α) (hne : k' ≠ k) :
    assoc_lookup (l ++ [(k', v)]) k = assoc_lookup l k := by
  unfold assoc_lookup
  rw [List.find?_append]
  cases hf : l.find? (fun p => decide (p.1 = k)) with
  | none => simp [List.find?, hne]
  | some p => simp

theorem assoc_lookup_of_not_mem {κ α : Type} [DecidableEq κ] (l : List (κ × α)) (k : κ)
    (h : k ∉ l.map Prod.fst) : assoc_lookup l k = Option.none := by
  induction l with
  | nil => rfl
  | cons p t ih =>
    simp only [List.map_cons, List.mem_cons] at h
    push_neg at h
    unfold assoc_lookup
    rw [List.find?_cons]
    have hp : (decide (p.1 = k)) = false := by simp [Ne.symm, h.1]
    rw [hp]
    exact ih h.2

theorem assoc_lookup_erase_self {κ α : Type} [DecidableEq κ] (l : List (κ × α)) (k : κ)
    (h : (l.map Prod.fst).Nodup) :
    assoc_lookup (assoc_erase l k) k = Option.none := by
  induction l with
  | nil => rfl
  | cons p t ih =>
    simp only [List.map_cons, List.nodup_cons] at h
    unfold assoc_erase
    rw [List.eraseP_cons]
    by_cases hk : p.1 = k
    · rw [show (decide (p.1 = k)) = true by simp [hk], cond_true]
      apply assoc_lookup_of_not_mem
      rw [hk] at h
      exact h.1
    · rw [show (decide (p.1 = k)) = false by simp [hk], cond_false]
      unfold assoc_lookup
      rw [List.find?_cons]
      have hp : (decide (p.1 = k)) = false := by simp [hk]
      rw [hp]
      exact ih h.2

theorem assoc_lookup_erase_other {κ α : Type} [DecidableEq κ] (l : List (κ × α))
    (k k' : κ) (hne : k' ≠ k) :
    assoc_lookup (assoc_erase l k') k = assoc_lookup l k := by
  induction l with
  | nil => rfl
  | cons p t ih =>
    unfold assoc_erase at ih ⊢
    rw [List.eraseP_cons]
    by_cases hk : p.1 = k'
    · rw [show (decide (p.1 = k')) = true by simp [hk], cond_true]
      unfold assoc_lookup
      rw [List.find?_cons]
      have hp : (decide (p.1 = k)) = false := by
        simp only [decide_eq_false_iff_not]
        rw [hk]
        exact hne
      rw [hp]
    · rw [show (decide (p.1 = k')) = false by simp [hk], cond_false]
      unfold assoc_lookup at ih ⊢
      rw [List.find?_cons, List.find?_cons]
      cases hp : (decide (p.1 = k)) with
      | true => simp
      | false => simpa using ih

theorem assoc_lookup_mem {κ α : Type} [DecidableEq κ] {l : List (κ × α)} {k : κ} {v : α}
    (h : assoc_lookup l k = some v) : (k, v) ∈ l := by
  unfold assoc_lookup at h
  cases hf : l.find? (fun p => decide (p.1 = k)) with
  | none => rw [hf] at h; simp at h
  | some p =>
    rw [hf] at h
    simp at h
    have hmem := List.mem_of_find?_eq_some hf
    have hkey : p.1 = k := by
      have := List.find?_some hf
      simpa using this
    obtain ⟨p1, p2⟩ := p
    cases hkey
    cases h
    exact hmem

theorem mark_update_fields (price : ℚ) (symbol : String) (st1 : PortState) :
    (mark_update price symbol st1).cash = st1.cash ∧
    (mark_update price symbol st1).positions = st1.positions ∧
    (mark_update price symbol st1).trades = st1.trades := by
  unfold mark_update
  cases assoc_lookup st1.positions symbol <;> exact ⟨rfl, rfl, rfl⟩

theorem trade_branch_buy (st : PortState) (symbol : String) (d : Date) (price : ℚ)
    (info : SignalInfo) (hsig : info.signal = SignalType.BUY)
    (hheld : assoc_lookup st.positions symbol = Option.none)
    (hpos : 0 < buy_shares st.cash info.confidence price) :
    trade_branch info price d symbol st =
      { st with
        cash := st.cash - buy_shares st.cash info.confidence price * price
        positions := st.positions ++
          [(symbol, ⟨buy_shares st.cash info.confidence price, price, d⟩)]
        trades := st.trades ++ [⟨d, symbol, SignalType.BUY,
          buy_shares st.cash info.confidence price, price, info.confidence⟩] } := by
  unfold trade_branch
  rw [if_pos ⟨hsig, hheld⟩]
  dsimp only
  rw [if_pos hpos]

theorem trade_branch_buy_zero (st : PortState) (symbol : String) (d : Date) (price : ℚ)
    (info : SignalInfo) (hsig : info.signal = SignalType.BUY)
    (hheld : assoc_lookup st.positions symbol = Option.none)
    (hz : ¬ 0 < buy_shares st.cash info.confidence price) :
    trade_branch info price d symbol st = st := by
  unfold trade_branch
  rw [if_pos ⟨hsig, hheld⟩]
  dsimp only
  rw [if_neg hz]

theorem trade_branch_sell (st : PortState) (symbol : String) (d : Date) (price : ℚ)
    (info : SignalInfo) (position : Position) (hsig : info.signal = SignalType.SELL)
    (hheld : assoc_lookup st.positions symbol = some position) :
    trade_branch info price d symbol st =
      { st with
        cash := st.cash + position.shares * price
        daily_ret := st.daily_ret + (price - position.entry_price) / position.entry_price
        trades := st.trades ++
          [⟨d, symbol, SignalType.SELL, position.shares, price, info.confidence⟩]
        positions := assoc_erase st.positions symbol } := by
  unfold trade_branch
  rw [if_neg (by simp [hsig])]
  rw [hsig, hheld]

/-- C1: when the signal is BUY and the symbol has no open position,
`shares = floor(cash * confidence * 0.10 / closePrice)`; if `shares > 0`
the cash is debited by `shares * closePrice`, a position
`(shares, closePrice, date)` is opened and a BUY trade record appended;
if `shares == 0` the state is unchanged. -/
theorem buy_rule (st : PortState) (symbol : String) (d : Date) (price : ℚ)
    (info : SignalInfo) (hsig : info.signal = SignalType.BUY)
    (hheld : assoc_lookup st.positions symbol = Option.none)
    (hcash : 0 ≤ st.cash) (hconf : 0 ≤ info.confidence) (hprice : 0 < price) :
    buy_shares st.cash info.confidence price =
      ⌊st.cash * info.confidence * (1 / 10) / price⌋ ∧
    (0 < buy_shares st.cash info.confidence price →
      execute_trade info price d symbol st =
        { st with
          cash := st.cash - buy_shares st.cash info.confidence price * price
          positions := st.positions ++
            [(symbol, ⟨buy_shares st.cash info.confidence price, price, d⟩)]
          trades := st.trades ++ [⟨d, symbol, SignalType.BUY,
            buy_shares st.cash info.confidence price, price, info.confidence⟩] }) ∧
    (buy_shares st.cash info.confidence price = 0 →
      execute_trade info price d symbol st = st) := by
  refine ⟨?_, ?_, ?_⟩
  · have hq : 0 ≤ st.cash * info.confidence * (1 / 10) / price :=
      div_nonneg (by positivity) (le_of_lt hprice)
    rw [buy_shares]
    exact pyInt_eq_floor hq
  · intro hpos
    rw [execute_trade, trade_branch_buy st symbol d price info hsig hheld hpos]
    unfold mark_update
    rw [show assoc_lookup (st.positions ++
        [(symbol, (⟨buy_shares st.cash info.confidence price, price, d⟩ : Position))]) symbol
      = some ⟨buy_shares st.cash info.confidence price, price, d⟩
      from assoc_lookup_append_self st.positions symbol _ hheld]
    simp
  · intro hz
    rw [execute_trade, trade_branch_buy_zero st symbol d price info hsig hheld (by omega)]
    unfold mark_update
    rw [hheld]

/-- C5: when the signal is SELL and the symbol has an open position of `s`
shares, the cash is credited with `s * closePrice`, a SELL trade record
carrying the original share count is appended, the realized return is
added to the daily accumulator, and the position is removed — the symbol
is flat afterwards. (The live signal generator never emits SELL, see C3;
this settles the SELL branch the code implements for injected signals.) -/
theorem sell_rule (st : PortState) (symbol : String) (d : Date) (price : ℚ)
    (info : SignalInfo) (position : Position) (hsig : info.signal = SignalType.SELL)
    (hheld : assoc_lookup st.positions symbol = some position)
    (hnodup : (st.positions.map Prod.fst).Nodup) :
    execute_trade info price d symbol st =
      { st with
        cash := st.cash + position.shares * price
        daily_ret := st.daily_ret + (price - position.entry_price) / position.entry_price
        trades := st.trades ++
          [⟨d, symbol, SignalType.SELL, position.shares, price, info.confidence⟩]
        positions := assoc_erase st.positions symbol } ∧
    assoc_lookup (execute_trade info price d symbol st).positions symbol = Option.none := by
  have hbranch := trade_branch_sell st symbol d price info position hsig hheld
  have herase := assoc_lookup_erase_self st.positions symbol hnodup
  constructor
  · rw [execute_trade, hbranch]
    unfold mark_update
    rw [show assoc_lookup (assoc_erase st.positions symbol) symbol = Option.none from herase]
  · rw [execute_trade, hbranch]
    unfold mark_update
    rw [show assoc_lookup (assoc_erase st.positions symbol) symbol = Option.none from herase]
    exact herase

/-- C1 (witness): with cash 100000, a forced BUY of confidence 0.5 and
price 100, `shares = 50` and the cash becomes 95000. -/
theorem buy_rule_witness :
    buy_shares 100000 (1 / 2) 100 = 50 ∧
    (execute_trade ⟨SignalType.BUY, 1 / 2, 0, []⟩ 100 demo_date "AAPL"
      ⟨100000, [], [], 0⟩).cash = 95000 := by
  have h := buy_rule ⟨100000, [], [], 0⟩ "AAPL" demo_date 100
    ⟨SignalType.BUY, 1 / 2, 0, []⟩ rfl rfl (by norm_num) (by norm_num) (by norm_num)
  have h2 := h.2.1 (by decide)
  exact ⟨by decide, by rw [h2]; decide⟩

/-- C5 (witness): selling an open 50-share position at 110 from cash 95000
leaves 100500 in cash and the symbol flat. -/
theorem sell_rule_witness :
    (execute_trade ⟨SignalType.SELL, 1 / 2, -3, []⟩ 110 demo_date "AAPL"
      ⟨95000, [("AAPL", ⟨50, 100, demo_date⟩)], [], 0⟩).cash = 100500 ∧
    assoc_lookup (execute_trade ⟨SignalType.SELL, 1 / 2, -3, []⟩ 110 demo_date "AAPL"
      ⟨95000, [("AAPL", ⟨50, 100, demo_date⟩)], [], 0⟩).positions "AAPL" = Option.none := by
  have h := sell_rule ⟨95000, [("AAPL", ⟨50, 100, demo_date⟩)], [], 0⟩ "AAPL" demo_date 110
    ⟨SignalType.SELL, 1 / 2, -3, []⟩ ⟨50, 100, demo_date⟩ rfl (by decide) (by decide)
  exact ⟨by rw [h.1]; decide, h.2⟩

theorem execute_trade_lookup_other (info : SignalInfo) (price : ℚ) (d : Date) (x : String)
    (st : PortState) (symbol : String) (hne : x ≠ symbol) :
    assoc_lookup (execute_trade info price d x st).positions symbol =
      assoc_lookup st.positions symbol := by
  rw [execute_trade, (mark_update_fields price x _).2.1]
  unfold trade_branch
  by_cases h1 : info.signal = SignalType.BUY ∧ assoc_lookup st.positions x = Option.none
  · rw [if_pos h1]
    dsimp only
    split
    · exact assoc_lookup_append_other st.positions symbol x _ hne
    · rfl
  · rw [if_neg h1]
    split
    · exact assoc_lookup_erase_other st.positions symbol x hne
    · rfl

theorem process_symbol_lookup_preserve (data_dict : DataDict) (d : Date) (st : PortState)
    (symbol x : String) (h : price_on data_dict symbol d = Option.none) :
    assoc_lookup (process_symbol data_dict d st x).positions symbol =
      assoc_lookup st.positions symbol := by
  unfold process_symbol
  cases hpx : price_on data_dict x d with
  | none => rfl
  | some price =>
    have hne : x ≠ symbol := by
      rintro rfl
      rw [h] at hpx
      exact Option.noConfusion hpx
    exact execute_trade_lookup_other _ price d x st symbol hne

/-- C9: a symbol with no price bar on a date is skipped for that date's
decision (its processing step is the identity), contributes nothing to
that date's mark-to-market sum, and its open position — if any — survives
the whole date's symbol loop unchanged. -/
theorem missing_bar_skip (data_dict : DataDict) (d : Date) (st : PortState)
    (symbol : String) (position : Position) (rest : List (String × Position))
    (symbols : List String) (h : price_on data_dict symbol d = Option.none) :
    process_symbol data_dict d st symbol = st ∧
    total_position_value data_dict d ((symbol, position) :: rest) =
      total_position_value data_dict d rest ∧
    assoc_lookup ((symbols.foldl (fun s x => process_symbol data_dict d s x) st).positions)
        symbol = assoc_lookup st.positions symbol := by
  refine ⟨?_, ?_, ?_⟩
  · unfold process_symbol
    rw [h]
  · unfold total_position_value
    simp [h]
  · induction symbols generalizing st with
    | nil => rfl
    | cons x xs ih =>
      simp only [List.foldl_cons]
      rw [ih]
      exact process_symbol_lookup_preserve data_dict d st symbol x h

/-- C9 (witness): on 1986-01-02 the demo data has no bar for "A": the step
is the identity, the mark-to-market sum ignores the open position, and the
position survives the date's loop. -/
theorem missing_bar_skip_witness :
    process_symbol demo_data ⟨1986, 1, 2⟩ ⟨94000, [("A", ⟨60, 100, demo_date⟩)], [], 0⟩ "A" =
      ⟨94000, [("A", ⟨60, 100, demo_date⟩)], [], 0⟩ ∧
    total_position_value demo_data ⟨1986, 1, 2⟩ [("A", ⟨60, 100, demo_date⟩)] =
      total_position_value demo_data ⟨1986, 1, 2⟩ [] ∧
    assoc_lookup ((["A", "B"].foldl (fun s x => process_symbol demo_data ⟨1986, 1, 2⟩ s x)
        ⟨94000, [("A", ⟨60, 100, demo_date⟩)], [], 0⟩).positions) "A" =
      assoc_lookup (⟨94000, [("A", ⟨60, 100, demo_date⟩)], [], 0⟩ : PortState).positions "A" :=
  missing_bar_skip demo_data ⟨1986, 1, 2⟩ ⟨94000, [("A", ⟨60, 100, demo_date⟩)], [], 0⟩
    "A" ⟨60, 100, demo_date⟩ [] ["A", "B"] (by decide)

theorem total_position_value_append (dd : DataDict) (d : Date)
    (l : List (String × Position)) (x : String) (pos : Position) :
    total_position_value dd d (l ++ [(x, pos)]) =
      total_position_value dd d l +
        (match price_on dd x d with
          | some close => pos.shares * close
          | Option.none => 0) := by
  unfold total_position_value
  rw [List.map_append, List.sum_append]
  simp

theorem total_position_value_erase (dd : DataDict) (d : Date)
    (l : List (String × Position)) (x : String) (pos : Position)
    (h : assoc_lookup l x = some pos) :
    total_position_value dd d (assoc_erase l x) =
      total_position_value dd d l -
        (match price_on dd x d with
          | some close => pos.shares * close
          | Option.none => 0) := by
  induction l with
  | nil => exact absurd h (by simp [assoc_lookup])
  | cons p t ih =>
    by_cases hk : p.1 = x
    · have hp2 : p.2 = pos := by
        unfold assoc_lookup at h
        rw [List.find?_cons, show decide (p.1 = x) = true by simp [hk]] at h
        simpa using h
      unfold assoc_erase
      rw [List.eraseP_cons, show decide (p.1 = x) = true by simp [hk], cond_true]
      unfold total_position_value
      rw [List.map_cons, List.sum_cons, hk, hp2]
      ring
    · have ht : assoc_lookup t x = some pos := by
        unfold assoc_lookup at h ⊢
        rw [List.find?_cons, show decide (p.1 = x) = false by simp [hk]] at h
        exact h
      unfold assoc_erase at ih ⊢
      rw [List.eraseP_cons, show decide (p.1 = x) = false by simp [hk], cond_false]
      unfold total_position_value at ih ⊢
      rw [List.map_cons, List.sum_cons, List.map_cons, List.sum_cons, ih ht]
      ring

theorem equity_value_mark (dd : DataDict) (d : Date) (price : ℚ) (x : String)
    (st1 : PortState) :
    equity_value dd d (mark_update price x st1) = equity_value dd d st1 := by
  unfold equity_value
  rw [(mark_update_fields price x st1).1, (mark_update_fields price x st1).2.1]

theorem trade_branch_equity (dd : DataDict) (d : Date) (info : SignalInfo) (x : String)
    (st : PortState) (price : ℚ) (hx : price_on dd x d = some price) :
    equity_value dd d (trade_branch info price d x st) = equity_value dd d st := by
  unfold trade_branch
  by_cases h1 : info.signal = SignalType.BUY ∧ assoc_lookup st.positions x = Option.none
  · rw [if_pos h1]
    dsimp only
    split
    · unfold equity_value
      dsimp only
      rw [total_position_value_append, hx]
      ring
    · rfl
  · rw [if_neg h1]
    split
    · next position heq1 heq2 =>
      unfold equity_value
      dsimp only
      rw [total_position_value_erase dd d st.positions x position heq2, hx]
      ring
    · rfl

theorem process_symbol_equity (dd : DataDict) (d : Date) (st : PortState) (x : String) :
    equity_value dd d (process_symbol dd d st x) = equity_value dd d st := by
  unfold process_symbol
  cases hpx : price_on dd x d with
  | none => rfl
  | some price =>
    unfold execute_trade
    rw [equity_value_mark, trade_branch_equity dd d _ x st price hpx]

/-- C2 (counterexample): with two symbols whose bars both produce a BUY on
1986-01-01, the two processing orders produce different trade logs — the
first symbol processed buys 60 shares and the second only 56, because the
second BUY sizes itself on the already-debited cash. -/
theorem symbol_order_counterexample :
    result_trades (run_backtest ["A", "B"] demo_data 100000) ≠
      result_trades (run_backtest ["B", "A"] demo_data 100000) := by
  decide

/-- C2 (amended): within a date, the symbol processing order cannot change
the equity value recorded for that date (every executed trade exchanges
cash for an equal mark-to-market value at that date's close), but it can
change the trade log and the resulting positions, and with them later
dates' equity — so order-independence of the full result does not hold. -/
theorem symbol_order_equity (data_dict : DataDict) (d : Date) (st : PortState)
    (symbols1 symbols2 : List String) :
    equity_value data_dict d
        (symbols1.foldl (fun s x => process_symbol data_dict d s x) st) =
      equity_value data_dict d
        (symbols2.foldl (fun s x => process_symbol data_dict d s x) st) := by
  have hfold : ∀ (l : List String) (s : PortState),
      equity_value data_dict d (l.foldl (fun s x => process_symbol data_dict d s x) s) =
        equity_value data_dict d s := by
    intro l
    induction l with
    | nil => intro s; rfl
    | cons x xs ih =>
      intro s
      simp only [List.foldl_cons]
      rw [ih, process_symbol_equity]
  rw [hfold, hfold]

theorem evaluate_confidence_bounds (current_wuxing symbol_wuxing : Element → ℕ) :
    0 ≤ (evaluate_signal current_wuxing symbol_wuxing).confidence ∧
    (evaluate_signal current_wuxing symbol_wuxing).confidence ≤ 1 := by
  rw [evaluate_signal_eq]
  split_ifs with h1 h2 <;> dsimp only
  · rw [pymin_eq_min]
    constructor
    · refine le_min (div_nonneg ?_ (by norm_num)) zero_le_one
      exact_mod_cast le_trans (by norm_num : (0 : ℤ) ≤ 3) h1
    · exact min_le_right _ _
  · rw [pymin_eq_min]
    constructor
    · refine le_min (div_nonneg ?_ (by norm_num)) zero_le_one
      exact_mod_cast abs_nonneg _
    · exact min_le_right _ _
  · norm_num

theorem get_trading_signal_confidence_bounds (symbol : String) (dt : PyDateTime) :
    0 ≤ (get_trading_signal symbol dt).confidence ∧
    (get_trading_signal symbol dt).confidence ≤ 1 :=
  evaluate_confidence_bounds _ _

theorem buy_cost_le_cash (cash conf price : ℚ) (hcash : 0 ≤ cash) (hc0 : 0 ≤ conf)
    (hc1 : conf ≤ 1) (hp : 0 < price) (hpos : 0 < buy_shares cash conf price) :
    (buy_shares cash conf price : ℚ) * price ≤ cash := by
  have hq0 : 0 ≤ cash * conf * (1 / 10) / price := pyInt_pos_nonneg hpos
  have hfloor : ((buy_shares cash conf price : ℤ) : ℚ) ≤ cash * conf * (1 / 10) / price := by
    rw [buy_shares, pyInt_eq_floor hq0]
    exact Int.floor_le _
  have h1 : (buy_shares cash conf price : ℚ) * price ≤
      cash * conf * (1 / 10) / price * price :=
    mul_le_mul_of_nonneg_right hfloor (le_of_lt hp)
  have h2 : cash * conf * (1 / 10) / price * price = cash * conf * (1 / 10) :=
    div_mul_cancel₀ _ (ne_of_gt hp)
  have h3 : cash * conf ≤ cash := by nlinarith
  nlinarith

theorem trade_branch_invariant (info : SignalInfo) (price : ℚ) (d : Date) (x : String)
    (st : PortState) (hp : 0 < price) (hc0 : 0 ≤ info.confidence)
    (hc1 : info.confidence ≤ 1) (hinv : cash_invariant st) :
    cash_invariant (trade_branch info price d x st) := by
  obtain ⟨hcash, hshares⟩ := hinv
  unfold trade_branch
  by_cases h1 : info.signal = SignalType.BUY ∧ assoc_lookup st.positions x = Option.none
  · rw [if_pos h1]
    dsimp only
    split
    · next hpos =>
      refine ⟨?_, ?_⟩
      · exact sub_nonneg.mpr (buy_cost_le_cash st.cash info.confidence price hcash hc0 hc1 hp hpos)
      · intro p hp2
        rcases List.mem_append.mp hp2 with hmem | hmem
        · exact hshares p hmem
        · simp only [List.mem_singleton] at hmem
          subst hmem
          exact hpos
    · exact ⟨hcash, hshares⟩
  · rw [if_neg h1]
    split
    · next position heq1 heq2 =>
      refine ⟨?_, ?_⟩
      · have hs := hshares _ (assoc_lookup_mem heq2)
        have hnn : (0 : ℚ) ≤ (position.shares : ℚ) * price :=
          mul_nonneg (by exact_mod_cast le_of_lt hs) (le_of_lt hp)
        exact add_nonneg hcash hnn
      · intro p hp2
        exact hshares p (List.eraseP_subset _ hp2)
    · exact ⟨hcash, hshares⟩

theorem mark_update_invariant (price : ℚ) (x : String) (st1 : PortState)
    (h : cash_invariant st1) : cash_invariant (mark_update price x st1) := by
  unfold cash_invariant at h ⊢
  rw [(mark_update_fields price x st1).1, (mark_update_fields price x st1).2.1]
  exact h

theorem price_on_pos (data_dict : DataDict) (s : String) (d : Date) (p : ℚ)
    (hdd : prices_pos data_dict) (h : price_on data_dict s d = some p) : 0 < p := by
  unfold price_on at h
  cases hs : assoc_lookup data_dict s with
  | none => rw [hs] at h; simp at h
  | some series =>
    rw [hs] at h
    simp at h
    exact hdd _ (assoc_lookup_mem hs) _ (assoc_lookup_mem h)

theorem process_symbol_invariant (data_dict : DataDict) (d : Date) (st : PortState)
    (x : String) (hdd : prices_pos data_dict) (hinv : cash_invariant st) :
    cash_invariant (process_symbol data_dict d st x) := by
  unfold process_symbol
  cases hpx : price_on data_dict x d with
  | none => exact hinv
  | some price =>
    have hp := price_on_pos data_dict x d price hdd hpx
    have hc := get_trading_signal_confidence_bounds x (to_datetime d)
    unfold execute_trade
    exact mark_update_invariant _ _ _
      (trade_branch_invariant _ _ _ _ _ hp hc.1 hc.2 hinv)

/-- C10: with a non-negative initial capital and positive close prices,
the simulator's cash balance stays non-negative throughout the run —
after any sequence of processed dates, and at any point inside a date's
symbol loop: a BUY debits at most `cash * confidence * 0.10 ≤ cash`
(confidence is at most 1), and a SELL only credits. -/
theorem cash_never_negative (symbols : List String) (data_dict : DataDict)
    (initial_capital : ℚ) (dates : List Date) (syms : List String) (d : Date)
    (hcap : 0 ≤ initial_capital) (hdd : prices_pos data_dict) :
    0 ≤ ((dates.foldl (process_date symbols data_dict)
        (init_sim_state initial_capital)).port).cash ∧
    0 ≤ (syms.foldl (fun s x => process_symbol data_dict d s x)
      { (dates.foldl (process_date symbols data_dict)
          (init_sim_state initial_capital)).port with daily_ret := 0 }).cash := by
  have hsym : ∀ (l : List String) (d' : Date) (st : PortState), cash_invariant st →
      cash_invariant (l.foldl (fun s x => process_symbol data_dict d' s x) st) := by
    intro l d'
    induction l with
    | nil => intro st h; exact h
    | cons x xs ih =>
      intro st h
      simp only [List.foldl_cons]
      exact ih _ (process_symbol_invariant data_dict d' st x hdd h)
  have hdate : ∀ (l : List Date) (st : SimState), cash_invariant st.port →
      cash_invariant ((l.foldl (process_date symbols data_dict) st).port) := by
    intro l
    induction l with
    | nil => intro st h; exact h
    | cons d0 ds ih =>
      intro st h
      simp only [List.foldl_cons]
      refine ih _ ?_
      show cash_invariant (process_date symbols data_dict st d0).port
      unfold process_date
      exact hsym symbols d0 { st.port with daily_ret := 0 } h
  have hinit : cash_invariant (init_sim_state initial_capital).port := by
    refine ⟨hcap, ?_⟩
    intro p hp
    exact absurd hp (List.not_mem_nil p)
  have hfold := hdate dates (init_sim_state initial_capital) hinit
  have hreset : cash_invariant
      { (dates.foldl (process_date symbols data_dict)
          (init_sim_state initial_capital)).port with daily_ret := 0 } := hfold
  exact ⟨hfold.1, (hsym syms d _ hreset).1⟩

/-- C10 (witness): a concrete run over the demo data from capital 100000
keeps the cash non-negative after the one date and inside the loop. -/
theorem cash_never_negative_witness :
    0 ≤ (([demo_date].foldl (process_date ["A", "B"] demo_data)
        (init_sim_state 100000)).port).cash ∧
    0 ≤ (["A", "B"].foldl (fun s x => process_symbol demo_data demo_date s x)
      { ([demo_date].foldl (process_date ["A", "B"] demo_data)
          (init_sim_state 100000)).port with daily_ret := 0 }).cash :=
  cash_never_negative ["A", "B"] demo_data 100000 [demo_date] ["A", "B"] demo_date
    (by norm_num) (by unfold prices_pos; decide)
